import Mathlib

/-
Verification development for the concurrent batch-fetch pipeline in
src/request/utils.go of the GoSmallProjects repository.

The Go source is shallowly embedded as follows.

Pure data:
  PostComments, UserPost, Url mirror the Go structs of the same names
  (Url carries the address, the success flag and the optional decoded post).
  The Go field PostId is int16; no arithmetic is ever performed on it, so it
  is modelled as Int.

Fetch operations (fetchPost, fetchComments):
  each performs one HTTP GET and can fail in four places, in program order:
  request construction, transport, non-200 status, JSON decode.  The network
  and the JSON decoder are the environment: a Net record supplies, per
  address, the outcome of attempting the request (HttpOutcome) and the two
  decoders as partial functions on the body.  fetchPost and fetchComments
  are the exact branch structures of utils.go lines 125-150 and 152-178 over
  that environment; fetchComments first builds the address with
  strings.Join([url, "comments"], "/") as in line 156.

Worker pool (worker, lines 68-117) and dispatcher (main, lines 204-219):
  a small-step transition relation Step on PState.  A worker is idle
  (blocked on the jobs channel), fetching an item (inside the select loop,
  remembering which of the two buffered fetch results it has already
  received), or stopped (returned).  The two fetch goroutines always send
  exactly once into buffered channels, so delivering a result to the worker
  is one step; the cancellation branch of the select is enabled whenever the
  context is cancelled and fewer than two results have been received, and it
  forwards the dequeued item as-is and returns from the worker (line 96-97).
  The merge of the two results into the item (lines 101-112) is applyResults.
  main feeds every url into the jobs channel, whose buffer holds the whole
  batch, before draining exactly numJobs results; since the sends never block
  and precede the receives in program order, the inbound queue is modelled as
  pre-filled at initialisation.  main never closes the jobs channel and
  always passes context.Background(), which is reflected by jobsClosed and
  cancellable being false in the configuration built by main; both remain
  available in the general model because the worker itself reacts to them.

Report (main, lines 221-240):
  each Printf line is one ReportLine constructor; report renders a drained
  result list exactly as the two loops do, including the 1-based positional
  index of the first section and the Go nil-pointer dereference that would
  occur on a successful item without a post (marker nilPanic, proved
  unreachable via the claim C7 invariant).
-/

set_option maxHeartbeats 1000000

namespace GoReq

/-- Model of the Go struct PostComments (utils.go lines 51-57). -/
structure PostComments where
  PostId : Int
  Id : Int
  Name : String
  Email : String
  Body : String
deriving DecidableEq, Repr

/-- Model of the Go struct UserPost (utils.go lines 44-49); Comments is a
nilable pointer in Go, hence an Option here. -/
structure UserPost where
  PostId : Int
  Title : String
  Body : String
  Comments : Option (List PostComments)
deriving DecidableEq, Repr

/-- Model of the Go struct Url (utils.go lines 119-123). -/
structure Url where
  url : String
  success : Bool
  post : Option UserPost
deriving DecidableEq, Repr

/-- The four distinct failure kinds a fetch operation reports
(the four wrapped error returns of fetchPost / fetchComments). -/
inductive FetchErr where
  | newRequest (msg : String)
  | httpDo (msg : String)
  | badStatus (status : Nat)
  | jsonDecode
deriving DecidableEq, Repr

/-- Environment view of one attempted HTTP request to a given address:
either request construction fails, or the transport fails, or a response
with some status and body arrives. -/
inductive HttpOutcome where
  | newRequestErr (msg : String)
  | transportErr (msg : String)
  | response (status : Nat) (body : String)
deriving DecidableEq, Repr

/-- Model of the Go struct postResult (utils.go lines 59-62). -/
structure postResult where
  post : Option UserPost
  err : Option FetchErr
deriving DecidableEq, Repr

/-- Model of the Go struct commentsResult (utils.go lines 63-66). -/
structure commentsResult where
  comments : Option (List PostComments)
  err : Option FetchErr
deriving DecidableEq, Repr

/-- The deterministic environment a run is performed against: the network
behaviour per address and the two JSON decoders. -/
structure Net where
  http : String → HttpOutcome
  decodePost : String → Option UserPost
  decodeComments : String → Option (List PostComments)

/-- Model of Url.fetchPost (utils.go lines 125-150): build the request,
perform it, require status 200, decode the body; each failure is reported
with its own error kind, in program order. -/
def fetchPost (net : Net) (u : Url) : postResult :=
  match net.http u.url with
  | .newRequestErr m => { post := none, err := some (.newRequest m) }
  | .transportErr m => { post := none, err := some (.httpDo m) }
  | .response status body =>
    if status ≠ 200 then { post := none, err := some (.badStatus status) }
    else
      match net.decodePost body with
      | none => { post := none, err := some .jsonDecode }
      | some p => { post := some p, err := none }

/-- The dependent address: strings.Join([]string{url, "comments"}, "/")
from utils.go line 156. -/
def urlCommentsOf (a : String) : String := String.intercalate "/" [a, "comments"]

/-- Model of Url.fetchComments (utils.go lines 152-178), identical branch
structure to fetchPost but against the dependent address and decoder. -/
def fetchComments (net : Net) (u : Url) : commentsResult :=
  match net.http (urlCommentsOf u.url) with
  | .newRequestErr m => { comments := none, err := some (.newRequest m) }
  | .transportErr m => { comments := none, err := some (.httpDo m) }
  | .response status body =>
    if status ≠ 200 then { comments := none, err := some (.badStatus status) }
    else
      match net.decodeComments body with
      | none => { comments := none, err := some .jsonDecode }
      | some c => { comments := some c, err := none }

/-- The merge of the two fetch results into the dequeued item, utils.go
lines 101-112: on primary success set the success flag and the post, and
attach the comments only when the dependent fetch also succeeded and the
post pointer is non-nil; on primary failure leave the item untouched. -/
def applyResults (u : Url) (pr : postResult) (cr : commentsResult) : Url :=
  if pr.err = none then
    let u1 : Url := { u with success := true, post := pr.post }
    match u1.post, cr.err with
    | some p, none => { u1 with post := some { p with Comments := cr.comments } }
    | _, _ => u1
  else u

/-- The complete outcome one worker computes for one item when it collects
both fetch results (the non-cancelled path of one loop iteration of worker,
utils.go lines 69-116). -/
def processItem (net : Net) (u : Url) : Url :=
  applyResults u (fetchPost net u) (fetchComments net u)

/-- Model of readLines (utils.go lines 9-29) on the successfully read line
list: keep the non-blank lines, in order, each wrapped as Url{url: line}
(success and post zero-valued). -/
def readLines (lines : List String) : List Url :=
  lines.filterMap fun l => if l = "" then none else some { url := l, success := false, post := none }

theorem fetchPost_err_none_post_some (net : Net) (u : Url)
    (h : (fetchPost net u).err = none) : ∃ p, (fetchPost net u).post = some p := by
  rcases hh : net.http u.url with m | m | ⟨status, body⟩ <;>
    simp [fetchPost, hh] at h ⊢
  by_cases hs : status = 200
  · subst hs
    rcases hd : net.decodePost body with _ | p <;> simp [hd] at h ⊢
  · simp [hs] at h

theorem applyResults_url (u : Url) (pr : postResult) (cr : commentsResult) :
    (applyResults u pr cr).url = u.url := by
  unfold applyResults
  by_cases h : pr.err = none <;> simp [h]
  rcases pr.post with _ | p <;> rcases hc : cr.err with _ | e <;> simp

theorem processItem_url (net : Net) (u : Url) : (processItem net u).url = u.url :=
  applyResults_url ..

theorem readLines_fresh (lines : List String) :
    ∀ u ∈ readLines lines, u.success = false ∧ u.post = none := by
  intro u hu
  unfold readLines at hu
  rcases List.mem_filterMap.mp hu with ⟨l, _, hl⟩
  by_cases h : l = "" <;> simp [h] at hl
  simp [← hl]

/-- C6: a single fetch operation, given an address, returns a decoded value
exactly when the request was constructed, the transport succeeded, the
status was 200 and the body decoded; otherwise it returns exactly one of
the four distinct error kinds, and the kind returned identifies which of
the four conditions failed (request construction, transport, non-200
status, decode), so the kinds are never merged.  Stated for fetchPost and,
against the dependent address, for fetchComments. -/
theorem claim_C6 (net : Net) (u : Url) :
    (((fetchPost net u).err = none ↔
        ∃ body p, net.http u.url = .response 200 body ∧ net.decodePost body = some p ∧
          (fetchPost net u).post = some p)
      ∧ ((fetchPost net u).post ≠ none ↔ (fetchPost net u).err = none)
      ∧ (∀ m, (fetchPost net u).err = some (.newRequest m) ↔ net.http u.url = .newRequestErr m)
      ∧ (∀ m, (fetchPost net u).err = some (.httpDo m) ↔ net.http u.url = .transportErr m)
      ∧ (∀ st, (fetchPost net u).err = some (.badStatus st) ↔
          st ≠ 200 ∧ ∃ body, net.http u.url = .response st body)
      ∧ ((fetchPost net u).err = some .jsonDecode ↔
          ∃ body, net.http u.url = .response 200 body ∧ net.decodePost body = none))
    ∧ (((fetchComments net u).err = none ↔
        ∃ body c, net.http (urlCommentsOf u.url) = .response 200 body ∧
          net.decodeComments body = some c ∧ (fetchComments net u).comments = some c)
      ∧ ((fetchComments net u).comments ≠ none ↔ (fetchComments net u).err = none)
      ∧ (∀ m, (fetchComments net u).err = some (.newRequest m) ↔
          net.http (urlCommentsOf u.url) = .newRequestErr m)
      ∧ (∀ m, (fetchComments net u).err = some (.httpDo m) ↔
          net.http (urlCommentsOf u.url) = .transportErr m)
      ∧ (∀ st, (fetchComments net u).err = some (.badStatus st) ↔
          st ≠ 200 ∧ ∃ body, net.http (urlCommentsOf u.url) = .response st body)
      ∧ ((fetchComments net u).err = some .jsonDecode ↔
          ∃ body, net.http (urlCommentsOf u.url) = .response 200 body ∧
            net.decodeComments body = none)) := by
  constructor
  · rcases hh : net.http u.url with m | m | ⟨status, body⟩ <;>
      simp [fetchPost, hh]
    by_cases hs : status = 200
    · subst hs
      rcases hd : net.decodePost body with _ | p <;> simp [hd] <;> omega
    · simp [hs]
  · rcases hh : net.http (urlCommentsOf u.url) with m | m | ⟨status, body⟩ <;>
      simp [fetchComments, hh]
    by_cases hs : status = 200
    · subst hs
      rcases hd : net.decodeComments body with _ | c <;> simp [hd] <;> omega
    · simp [hs]

/-- C4: when the primary fetch fails, the merge leaves the dequeued
descriptor completely untouched, whatever the dependent fetch returned; in
particular a descriptor dequeued in its initial state (success false, no
post) is handed to the outbound queue with succeeded false and no
primaryResult. -/
theorem claim_C4 (net : Net) (u : Url) (e : FetchErr)
    (hp : (fetchPost net u).err = some e) :
    (∀ cr : commentsResult, applyResults u (fetchPost net u) cr = u)
    ∧ processItem net u = u
    ∧ (processItem net u).success = u.success
    ∧ (processItem net u).post = u.post := by
  have hall : ∀ cr : commentsResult, applyResults u (fetchPost net u) cr = u := by
    intro cr
    unfold applyResults
    simp [hp]
  have hpi : processItem net u = u := hall _
  exact ⟨hall, hpi, by rw [hpi], by rw [hpi]⟩

/-- C3: when the primary fetch succeeds with decoded payload p and the
dependent fetch fails, the merged descriptor is exactly the input with
succeeded set to true and primaryResult set to p; the dependent failure
attaches nothing, so when the decoded primary payload carries no comments
(the documented body shape) the result has no dependent list either. -/
theorem claim_C3 (net : Net) (u : Url) (p : UserPost) (e : FetchErr)
    (hp : fetchPost net u = { post := some p, err := none })
    (hc : (fetchComments net u).err = some e) :
    processItem net u = { u with success := true, post := some p }
    ∧ (p.Comments = none →
        ∀ q, (processItem net u).post = some q → q.Comments = none) := by
  have hmain : processItem net u = { u with success := true, post := some p } := by
    unfold processItem applyResults
    simp [hp, hc]
  refine ⟨hmain, ?_⟩
  intro hshape q hq
  rw [hmain] at hq
  simp at hq
  rw [← hq]
  exact hshape

def netW1 : Net where
  http a :=
    if a = "a" then .response 200 "P"
    else .response 500 ""
  decodePost b := if b = "P" then some { PostId := 7, Title := "t", Body := "", Comments := none } else none
  decodeComments _ := none

def uW1 : Url := { url := "a", success := false, post := none }

/-- Witness for claim C3 at a concrete environment: the primary address
answers 200 with a decodable body, the dependent address answers 500. -/
theorem claim_C3_witness :
    processItem netW1 uW1 =
      { uW1 with success := true,
                 post := some { PostId := 7, Title := "t", Body := "", Comments := none } }
    ∧ (({ PostId := 7, Title := "t", Body := "", Comments := none } : UserPost).Comments = none →
        ∀ q, (processItem netW1 uW1).post = some q → q.Comments = none) :=
  claim_C3 netW1 uW1 { PostId := 7, Title := "t", Body := "", Comments := none }
    (.badStatus 500) (by decide) (by decide)

def uW2 : Url := { url := "b", success := false, post := none }

/-- Witness for claim C4 at a concrete environment: the primary address of
this item answers 500, so its fetch fails with a status error. -/
theorem claim_C4_witness :
    (∀ cr : commentsResult, applyResults uW2 (fetchPost netW1 uW2) cr = uW2)
    ∧ processItem netW1 uW2 = uW2
    ∧ (processItem netW1 uW2).success = uW2.success
    ∧ (processItem netW1 uW2).post = uW2.post :=
  claim_C4 netW1 uW2 (.badStatus 500) (by decide)

/-- Runtime status of one worker goroutine: blocked on the inbound channel,
inside the select loop for one item (remembering which of the two buffered
fetch results it has already received), or returned. -/
inductive WStatus where
  | idle
  | fetching (u : Url) (pr : Option postResult) (cr : Option commentsResult)
  | stopped
deriving DecidableEq, Repr

/-- Mutable shared state of one pipeline run: the inbound channel contents
and closed flag, the context cancellation flag, the worker statuses, and
the outbound channel contents in send order (which is also the order the
dispatcher receives them in). -/
structure PState where
  jobs : List Url
  jobsClosed : Bool
  cancelled : Bool
  workers : List WStatus
  results : List Url
deriving DecidableEq, Repr

/-- Static configuration of a run: the deterministic fetch environment and
whether the context handed to the workers can ever be cancelled
(context.Background() in main never can). -/
structure Config where
  net : Net
  cancellable : Bool

/-- One interleaving step of the pipeline, following worker (utils.go lines
68-117).  A fetch result delivery combines the send of the always-sending
goroutine into its size-1 buffered channel with the select receive; the
cancellation branch is enabled whenever the context is done and the worker
has received fewer than two results, and it forwards the dequeued item
unchanged and returns from the worker. -/
inductive Step (cfg : Config) : PState → PState → Prop
  | cancelFire (s : PState) :
      cfg.cancellable = true → s.cancelled = false →
      Step cfg s { s with cancelled := true }
  | dequeue (s : PState) (i : Nat) (u : Url) (tl : List Url) :
      s.workers[i]? = some .idle → s.jobs = u :: tl →
      Step cfg s { s with jobs := tl, workers := s.workers.set i (.fetching u none none) }
  | deliverPost (s : PState) (i : Nat) (u : Url) (cr : Option commentsResult) :
      s.workers[i]? = some (.fetching u none cr) →
      Step cfg s { s with workers := s.workers.set i (.fetching u (some (fetchPost cfg.net u)) cr) }
  | deliverComments (s : PState) (i : Nat) (u : Url) (pr : Option postResult) :
      s.workers[i]? = some (.fetching u pr none) →
      Step cfg s { s with workers := s.workers.set i (.fetching u pr (some (fetchComments cfg.net u))) }
  | cancelExit (s : PState) (i : Nat) (u : Url) (pr : Option postResult) (cr : Option commentsResult) :
      s.cancelled = true → s.workers[i]? = some (.fetching u pr cr) →
      pr = none ∨ cr = none →
      Step cfg s { s with workers := s.workers.set i .stopped, results := s.results ++ [u] }
  | finishItem (s : PState) (i : Nat) (u : Url) (p : postResult) (c : commentsResult) :
      s.workers[i]? = some (.fetching u (some p) (some c)) →
      Step cfg s { s with workers := s.workers.set i .idle,
                          results := s.results ++ [applyResults u p c] }
  | exitClosed (s : PState) (i : Nat) :
      s.jobsClosed = true → s.jobs = [] → s.workers[i]? = some .idle →
      Step cfg s { s with workers := s.workers.set i .stopped }

/-- Reachability along pipeline steps. -/
def Reach (cfg : Config) (s t : PState) : Prop :=
  Relation.ReflTransGen (Step cfg) s t

/-- A quiescent state: no pipeline step applies any more. -/
def Terminal (cfg : Config) (s : PState) : Prop :=
  ∀ t, ¬ Step cfg s t

/-- Initial state of a run: main (utils.go lines 204-213) sizes the jobs
channel to the batch and feeds every url before any receive, so the inbound
queue starts full; n workers start blocked on the inbound channel; the jobs
channel is never closed by main (jc is false there) and the context starts
uncancelled. -/
def initState (inputs : List Url) (n : Nat) (jc : Bool) : PState where
  jobs := inputs
  jobsClosed := jc
  cancelled := false
  workers := List.replicate n .idle
  results := []

/-- The configuration main builds: workers receive context.Background(),
which is never cancelled (utils.go lines 207-209). -/
def mainConfig (net : Net) : Config where
  net := net
  cancellable := false

/-- The initial state main builds from the url file contents. -/
def mainInit (lines : List String) (n : Nat) : PState :=
  initState (readLines lines) n false

theorem set_append_perm {α : Type _} :
    ∀ (l : List α) (i : Nat) (a b : α), l[i]? = some b →
      (l.set i a ++ [b]).Perm (l ++ [a])
  | [], i, a, b => by simp
  | x :: t, 0, a, b => by
    intro h
    simp only [List.getElem?_cons_zero, Option.some.injEq] at h
    subst h
    have h1 : (t ++ [x]).Perm (x :: t) := List.perm_append_singleton x t
    have h2 : (a :: (t ++ [x])).Perm (a :: x :: t) := h1.cons a
    have h3 : (a :: x :: t).Perm (x :: a :: t) := List.Perm.swap x a t
    have h4 : (a :: t).Perm (t ++ [a]) := (List.perm_append_singleton a t).symm
    exact (h2.trans h3).trans (h4.cons x)
  | x :: t, i + 1, a, b => by
    intro h
    simp only [List.getElem?_cons_succ] at h
    exact (set_append_perm t i a b h).cons x

theorem filterMap_singleton_toList {α β : Type _} (f : α → Option β) (a : α) :
    List.filterMap f [a] = (f a).toList := by
  cases h : f a <;> simp [List.filterMap_cons, h]

theorem filterMap_set_perm {α β : Type _} (f : α → Option β) (l : List α) (i : Nat)
    (w w' : α) (h : l[i]? = some w) :
    (List.filterMap f (l.set i w') ++ (f w).toList).Perm
      (List.filterMap f l ++ (f w').toList) := by
  have hp := (set_append_perm l i w' w h).filterMap f
  simpa [List.filterMap_append, filterMap_singleton_toList] using hp

theorem map_sum_set (f : WStatus → Nat) (l : List WStatus) (i : Nat) (w w' : WStatus)
    (h : l[i]? = some w) :
    ((l.set i w').map f).sum + f w = (l.map f).sum + f w' := by
  have hp := ((set_append_perm l i w' w h).map f).sum_eq
  simp only [List.map_append, List.sum_append, List.map_cons, List.map_nil,
    List.sum_cons, List.sum_nil] at hp
  omega

/-- The item a worker currently holds, if any. -/
def heldOf : WStatus → Option Url
  | .fetching u _ _ => some u
  | _ => none

/-- All items currently dequeued but not yet sent to the outbound queue. -/
def held (s : PState) : List Url := s.workers.filterMap heldOf

/-- Relation between a submitted item and the outcome the dispatcher
receives for it: either the full merged outcome of its two fetches, or,
only when cancellation is possible at all, the item forwarded unchanged by
the cancellation branch. -/
def ItemOutcome (cfg : Config) (u r : Url) : Prop :=
  r = processItem cfg.net u ∨ (cfg.cancellable = true ∧ r = u)

/-- A fetch result slot held by a worker is either still empty or holds
exactly what the corresponding fetch goroutine sent for the held item. -/
def DeliveredOk (net : Net) : WStatus → Prop
  | .fetching u pr cr =>
      (pr = none ∨ pr = some (fetchPost net u))
      ∧ (cr = none ∨ cr = some (fetchComments net u))
  | _ => True

/-- The pipeline bookkeeping invariant: the context is only ever cancelled
when it is cancellable, result slots hold genuine fetch results, and the
submitted multiset splits exactly into still-queued items, held items, and
items already answered on the outbound queue, each answered exactly once
with an ItemOutcome. -/
structure Inv (cfg : Config) (inputs : List Url) (s : PState) : Prop where
  canc : s.cancelled = true → cfg.cancellable = true
  delivered : ∀ w ∈ s.workers, DeliveredOk cfg.net w
  account : ∃ done : List (Url × Url),
      (↑inputs : Multiset Url) = ↑s.jobs + ↑(held s) + ↑(done.map Prod.fst)
      ∧ s.results = done.map Prod.snd
      ∧ ∀ q ∈ done, ItemOutcome cfg q.1 q.2

theorem held_init (inputs : List Url) (n : Nat) (jc : Bool) :
    held (initState inputs n jc) = [] := by
  unfold held initState
  induction n with
  | zero => simp
  | succ k ih => simp_all [List.replicate_succ, List.filterMap_cons, heldOf]

theorem init_inv (cfg : Config) (inputs : List Url) (n : Nat) (jc : Bool) :
    Inv cfg inputs (initState inputs n jc) := by
  refine ⟨by simp [initState], ?_, ⟨[], ?_, by simp [initState], by simp⟩⟩
  · intro w hw
    rw [show (initState inputs n jc).workers = List.replicate n .idle from rfl] at hw
    rw [List.eq_of_mem_replicate hw]
    trivial
  · have hh : held (initState inputs n jc) = [] := held_init inputs n jc
    rw [show (initState inputs n jc).jobs = inputs from rfl, hh]
    simp

theorem held_ms (l : List WStatus) (i : Nat) (w w' : WStatus) (h : l[i]? = some w) :
    (↑(List.filterMap heldOf (l.set i w')) : Multiset Url) + ↑(heldOf w).toList
      = ↑(List.filterMap heldOf l) + ↑(heldOf w').toList :=
  Multiset.coe_eq_coe.mpr (filterMap_set_perm heldOf l i w w' h)

theorem step_inv (cfg : Config) (inputs : List Url) (s s' : PState)
    (hinv : Inv cfg inputs s) (hstep : Step cfg s s') : Inv cfg inputs s' := by
  obtain ⟨hcanc, hdel, done, hacc, hres, hout⟩ := hinv
  simp only [held] at hacc
  cases hstep with
  | cancelFire hcfg hc =>
    exact ⟨fun _ => hcfg, hdel, done, hacc, hres, hout⟩
  | dequeue i u tl hw hj =>
    refine ⟨hcanc, ?_, done, ?_, hres, hout⟩
    · intro w hw2
      rcases List.mem_or_eq_of_mem_set hw2 with h | h
      · exact hdel w h
      · subst h
        exact ⟨Or.inl rfl, Or.inl rfl⟩
    · have hm := held_ms s.workers i .idle (.fetching u none none) hw
      simp only [heldOf, Option.toList_none, Option.toList_some,
        Multiset.coe_nil, Multiset.coe_singleton, add_zero] at hm
      rw [hj] at hacc
      show (↑inputs : Multiset Url) = ↑tl
        + ↑(List.filterMap heldOf (s.workers.set i (.fetching u none none)))
        + ↑(List.map Prod.fst done)
      rw [hacc, hm]
      simp only [← Multiset.cons_coe, ← Multiset.singleton_add]
      abel
  | deliverPost i u cr hw =>
    have hold := hdel _ (List.getElem?_mem hw)
    refine ⟨hcanc, ?_, done, ?_, hres, hout⟩
    · intro w hw2
      rcases List.mem_or_eq_of_mem_set hw2 with h | h
      · exact hdel w h
      · subst h
        exact ⟨Or.inr rfl, hold.2⟩
    · have hm := held_ms s.workers i (.fetching u none cr)
        (.fetching u (some (fetchPost cfg.net u)) cr) hw
      simp only [heldOf, Option.toList_some, Multiset.coe_singleton] at hm
      have hm2 := add_right_cancel hm
      show (↑inputs : Multiset Url) = ↑s.jobs
        + ↑(List.filterMap heldOf (s.workers.set i (.fetching u (some (fetchPost cfg.net u)) cr)))
        + ↑(List.map Prod.fst done)
      rw [hm2]
      exact hacc
  | deliverComments i u pr hw =>
    have hold := hdel _ (List.getElem?_mem hw)
    refine ⟨hcanc, ?_, done, ?_, hres, hout⟩
    · intro w hw2
      rcases List.mem_or_eq_of_mem_set hw2 with h | h
      · exact hdel w h
      · subst h
        exact ⟨hold.1, Or.inr rfl⟩
    · have hm := held_ms s.workers i (.fetching u pr none)
        (.fetching u pr (some (fetchComments cfg.net u))) hw
      simp only [heldOf, Option.toList_some, Multiset.coe_singleton] at hm
      have hm2 := add_right_cancel hm
      show (↑inputs : Multiset Url) = ↑s.jobs
        + ↑(List.filterMap heldOf (s.workers.set i (.fetching u pr (some (fetchComments cfg.net u)))))
        + ↑(List.map Prod.fst done)
      rw [hm2]
      exact hacc
  | cancelExit i u pr cr hc hw hone =>
    refine ⟨hcanc, ?_, done ++ [(u, u)], ?_, ?_, ?_⟩
    · intro w hw2
      rcases List.mem_or_eq_of_mem_set hw2 with h | h
      · exact hdel w h
      · subst h
        trivial
    · have hm := held_ms s.workers i (.fetching u pr cr) .stopped hw
      simp only [heldOf, Option.toList_some, Option.toList_none,
        Multiset.coe_singleton, Multiset.coe_nil, add_zero] at hm
      show (↑inputs : Multiset Url) = ↑s.jobs
        + ↑(List.filterMap heldOf (s.workers.set i .stopped))
        + ↑(List.map Prod.fst (done ++ [(u, u)]))
      rw [hacc, ← hm]
      simp only [List.map_append, List.map_cons, List.map_nil]
      rw [show (↑(List.map Prod.fst done ++ [u]) : Multiset Url)
        = ↑(List.map Prod.fst done) + ↑[u] from rfl]
      simp only [Multiset.coe_singleton, ← Multiset.singleton_add]
      abel
    · show s.results ++ [u] = List.map Prod.snd (done ++ [(u, u)])
      simp only [List.map_append, List.map_cons, List.map_nil]
      rw [← hres]
    · intro q hq
      rcases List.mem_append.mp hq with h | h
      · exact hout q h
      · simp only [List.mem_cons, List.not_mem_nil, or_false] at h
        subst h
        exact Or.inr ⟨hcanc hc, rfl⟩
  | finishItem i u p c hw =>
    have hold := hdel _ (List.getElem?_mem hw)
    have hp : p = fetchPost cfg.net u := by
      rcases hold.1 with h | h
      · exact absurd h (by simp)
      · exact Option.some.inj h
    have hcc : c = fetchComments cfg.net u := by
      rcases hold.2 with h | h
      · exact absurd h (by simp)
      · exact Option.some.inj h
    refine ⟨hcanc, ?_, done ++ [(u, applyResults u p c)], ?_, ?_, ?_⟩
    · intro w hw2
      rcases List.mem_or_eq_of_mem_set hw2 with h | h
      · exact hdel w h
      · subst h
        trivial
    · have hm := held_ms s.workers i (.fetching u (some p) (some c)) .idle hw
      simp only [heldOf, Option.toList_some, Option.toList_none,
        Multiset.coe_singleton, Multiset.coe_nil, add_zero] at hm
      show (↑inputs : Multiset Url) = ↑s.jobs
        + ↑(List.filterMap heldOf (s.workers.set i .idle))
        + ↑(List.map Prod.fst (done ++ [(u, applyResults u p c)]))
      rw [hacc, ← hm]
      simp only [List.map_append, List.map_cons, List.map_nil]
      rw [show (↑(List.map Prod.fst done ++ [u]) : Multiset Url)
        = ↑(List.map Prod.fst done) + ↑[u] from rfl]
      simp only [Multiset.coe_singleton, ← Multiset.singleton_add]
      abel
    · show s.results ++ [applyResults u p c]
        = List.map Prod.snd (done ++ [(u, applyResults u p c)])
      simp only [List.map_append, List.map_cons, List.map_nil]
      rw [← hres]
    · intro q hq
      rcases List.mem_append.mp hq with h | h
      · exact hout q h
      · simp only [List.mem_cons, List.not_mem_nil, or_false] at h
        subst h
        refine Or.inl ?_
        rw [processItem, hp, hcc]
  | exitClosed i hjc hj hw =>
    refine ⟨hcanc, ?_, done, ?_, hres, hout⟩
    · intro w hw2
      rcases List.mem_or_eq_of_mem_set hw2 with h | h
      · exact hdel w h
      · subst h
        trivial
    · have hm := held_ms s.workers i .idle .stopped hw
      simp only [heldOf, Option.toList_none, Multiset.coe_nil, add_zero] at hm
      show (↑inputs : Multiset Url) = ↑s.jobs
        + ↑(List.filterMap heldOf (s.workers.set i .stopped))
        + ↑(List.map Prod.fst done)
      rw [hm]
      exact hacc

/-- Any reachable state of a run satisfies the bookkeeping invariant. -/
theorem reach_inv (cfg : Config) (inputs : List Url) (n : Nat) (jc : Bool) (s : PState)
    (h : Reach cfg (initState inputs n jc) s) : Inv cfg inputs s := by
  induction h with
  | refl => exact init_inv cfg inputs n jc
  | tail _ hstep ih => exact step_inv cfg inputs _ _ ih hstep

theorem step_jobsClosed (cfg : Config) (s s' : PState) (h : Step cfg s s') :
    s'.jobsClosed = s.jobsClosed := by
  cases h <;> rfl

theorem reach_jobsClosed (cfg : Config) (s s' : PState) (h : Reach cfg s s') :
    s'.jobsClosed = s.jobsClosed := by
  induction h with
  | refl => rfl
  | tail _ hstep ih => rw [step_jobsClosed cfg _ _ hstep, ih]

theorem step_workers_length (cfg : Config) (s s' : PState) (h : Step cfg s s') :
    s'.workers.length = s.workers.length := by
  cases h <;> simp [List.length_set]

theorem reach_workers_length (cfg : Config) (s s' : PState) (h : Reach cfg s s') :
    s'.workers.length = s.workers.length := by
  induction h with
  | refl => rfl
  | tail _ hstep ih => rw [step_workers_length cfg _ _ hstep, ih]

theorem step_results_append (cfg : Config) (s s' : PState) (h : Step cfg s s') :
    ∃ t, s'.results = s.results ++ t := by
  cases h with
  | cancelFire hcfg hc => exact ⟨[], by simp⟩
  | dequeue i u tl hw hj => exact ⟨[], by simp⟩
  | deliverPost i u cr hw => exact ⟨[], by simp⟩
  | deliverComments i u pr hw => exact ⟨[], by simp⟩
  | cancelExit i u pr cr hc hw hone => exact ⟨[u], rfl⟩
  | finishItem i u p c hw => exact ⟨[applyResults u p c], rfl⟩
  | exitClosed i hjc hj hw => exact ⟨[], by simp⟩

/-- In a run whose context can never be cancelled and whose inbound channel
is never closed (the configuration main builds), the context stays
uncancelled and no worker ever returns. -/
theorem reach_no_stop (cfg : Config) (inputs : List Url) (n : Nat) (s : PState)
    (hcanc : cfg.cancellable = false)
    (h : Reach cfg (initState inputs n false) s) :
    s.cancelled = false ∧ s.jobsClosed = false ∧ ∀ w ∈ s.workers, w ≠ WStatus.stopped := by
  induction h with
  | refl =>
    refine ⟨rfl, rfl, ?_⟩
    intro w hw
    rw [show (initState inputs n false).workers = List.replicate n .idle from rfl] at hw
    rw [List.eq_of_mem_replicate hw]
    simp
  | tail _ hstep ih =>
    obtain ⟨ih1, ih2, ih3⟩ := ih
    cases hstep with
    | cancelFire hcfg hc => rw [hcanc] at hcfg; cases hcfg
    | dequeue i u tl hw hj =>
      refine ⟨ih1, ih2, ?_⟩
      intro w hw2
      rcases List.mem_or_eq_of_mem_set hw2 with h | h
      · exact ih3 w h
      · subst h; simp
    | deliverPost i u cr hw =>
      refine ⟨ih1, ih2, ?_⟩
      intro w hw2
      rcases List.mem_or_eq_of_mem_set hw2 with h | h
      · exact ih3 w h
      · subst h; simp
    | deliverComments i u pr hw =>
      refine ⟨ih1, ih2, ?_⟩
      intro w hw2
      rcases List.mem_or_eq_of_mem_set hw2 with h | h
      · exact ih3 w h
      · subst h; simp
    | cancelExit i u pr cr hc hw hone => rw [ih1] at hc; cases hc
    | finishItem i u p c hw =>
      refine ⟨ih1, ih2, ?_⟩
      intro w hw2
      rcases List.mem_or_eq_of_mem_set hw2 with h | h
      · exact ih3 w h
      · subst h; simp
    | exitClosed i hjc hj hw => rw [ih2] at hjc; cases hjc

theorem filterMap_eq_nil_of_none {α β : Type _} (f : α → Option β) :
    ∀ l : List α, (∀ a ∈ l, f a = none) → List.filterMap f l = []
  | [], _ => rfl
  | x :: t, h => by
    have hx := h x (by simp)
    have ht := filterMap_eq_nil_of_none f t fun a ha => h a (by simp [ha])
    simp [List.filterMap_cons, hx, ht]

/-- In the never-cancelled, never-closed configuration with at least one
worker, a quiescent reachable state has answered every submitted item: its
outbound contents are a permutation of the pointwise processed inputs. -/
theorem terminal_complete (cfg : Config) (inputs : List Url) (n : Nat) (s : PState)
    (hcanc : cfg.cancellable = false) (hn : 1 ≤ n)
    (hreach : Reach cfg (initState inputs n false) s) (hterm : Terminal cfg s) :
    s.results.Perm (inputs.map (processItem cfg.net)) := by
  obtain ⟨hnc, hncl, hnostop⟩ := reach_no_stop cfg inputs n s hcanc hreach
  obtain ⟨_, _, done, hacc, hres, hout⟩ := reach_inv cfg inputs n false s hreach
  have hnofetch : ∀ w ∈ s.workers, ∀ u pr cr, w ≠ WStatus.fetching u pr cr := by
    intro w hw u pr cr hf
    subst hf
    obtain ⟨i, hi⟩ := List.getElem?_of_mem hw
    rcases pr with _ | p
    · exact hterm _ (Step.deliverPost s i u cr hi)
    rcases cr with _ | c
    · exact hterm _ (Step.deliverComments s i u (some p) hi)
    exact hterm _ (Step.finishItem s i u p c hi)
  have hidle : ∀ w ∈ s.workers, w = WStatus.idle := by
    intro w hw
    cases w with
    | idle => rfl
    | fetching u pr cr => exact absurd rfl (hnofetch _ hw u pr cr)
    | stopped => exact absurd rfl (hnostop _ hw)
  have hlen : s.workers.length = n := by
    rw [reach_workers_length cfg _ _ hreach]
    simp [initState]
  have hjobs : s.jobs = [] := by
    cases hj : s.jobs with
    | nil => rfl
    | cons u tl =>
      have h0 : s.workers[0]? = some s.workers[0] :=
        List.getElem?_eq_getElem (by omega)
      have hid : s.workers[0] = WStatus.idle :=
        hidle _ (List.getElem?_mem h0)
      rw [hid] at h0
      exact absurd (Step.dequeue s 0 u tl h0 hj) (hterm _)
  have hheld : held s = [] := by
    apply filterMap_eq_nil_of_none
    intro w hw
    rw [hidle w hw]
    rfl
  have hdone : (↑inputs : Multiset Url) = ↑(List.map Prod.fst done) := by
    rw [hacc, hjobs, hheld]
    simp
  have hperm : inputs.Perm (done.map Prod.fst) := Multiset.coe_eq_coe.mp hdone
  have hsnd : done.map Prod.snd = done.map (fun q => processItem cfg.net q.1) := by
    apply List.map_congr_left
    intro q hq
    rcases hout q hq with h | h
    · exact h
    · rw [hcanc] at h; cases h.1
  rw [hres, hsnd]
  have hcomp : done.map (fun q => processItem cfg.net q.1)
      = (done.map Prod.fst).map (processItem cfg.net) := by
    rw [List.map_map]
    rfl
  rw [hcomp]
  exact (hperm.map (processItem cfg.net)).symm

/-- Remaining work of one worker: one step to merge and send, plus one per
fetch result not yet received. -/
def wcost : WStatus → Nat
  | .fetching _ pr cr =>
      1 + (if pr = none then 1 else 0) + (if cr = none then 1 else 0)
  | _ => 0

/-- One if the worker can still take steps, zero once it returned. -/
def aliveCost : WStatus → Nat
  | .stopped => 0
  | _ => 1

/-- Strictly decreasing step measure of a pipeline state. -/
def pipeMeasure (s : PState) : Nat :=
  2 * (4 * s.jobs.length + (s.workers.map wcost).sum)
    + (s.workers.map aliveCost).sum
    + (if s.cancelled = true then 0 else 1)

theorem step_measure_lt (cfg : Config) (s s' : PState) (h : Step cfg s s') :
    pipeMeasure s' < pipeMeasure s := by
  cases h with
  | cancelFire hcfg hc =>
    simp [pipeMeasure, hc]
  | dequeue i u tl hw hj =>
    have hw' := map_sum_set wcost s.workers i .idle (.fetching u none none) hw
    have ha' := map_sum_set aliveCost s.workers i .idle (.fetching u none none) hw
    rw [show wcost .idle = 0 from rfl,
        show wcost (.fetching u none none) = 1 + 1 + 1 from rfl] at hw'
    rw [show aliveCost .idle = 1 from rfl,
        show aliveCost (.fetching u none none) = 1 from rfl] at ha'
    simp only [pipeMeasure, hj, List.length_cons]
    omega
  | deliverPost i u cr hw =>
    have hw' := map_sum_set wcost s.workers i (.fetching u none cr)
      (.fetching u (some (fetchPost cfg.net u)) cr) hw
    have ha' := map_sum_set aliveCost s.workers i (.fetching u none cr)
      (.fetching u (some (fetchPost cfg.net u)) cr) hw
    rw [show wcost (.fetching u none cr) = 1 + 1 + (if cr = none then 1 else 0) from rfl,
        show wcost (.fetching u (some (fetchPost cfg.net u)) cr)
          = 1 + 0 + (if cr = none then 1 else 0) from rfl] at hw'
    rw [show aliveCost (.fetching u none cr) = 1 from rfl,
        show aliveCost (.fetching u (some (fetchPost cfg.net u)) cr) = 1 from rfl] at ha'
    simp only [pipeMeasure]
    omega
  | deliverComments i u pr hw =>
    have hw' := map_sum_set wcost s.workers i (.fetching u pr none)
      (.fetching u pr (some (fetchComments cfg.net u))) hw
    have ha' := map_sum_set aliveCost s.workers i (.fetching u pr none)
      (.fetching u pr (some (fetchComments cfg.net u))) hw
    rw [show wcost (.fetching u pr none) = 1 + (if pr = none then 1 else 0) + 1 from rfl,
        show wcost (.fetching u pr (some (fetchComments cfg.net u)))
          = 1 + (if pr = none then 1 else 0) + 0 from rfl] at hw'
    rw [show aliveCost (.fetching u pr none) = 1 from rfl,
        show aliveCost (.fetching u pr (some (fetchComments cfg.net u))) = 1 from rfl] at ha'
    simp only [pipeMeasure]
    omega
  | cancelExit i u pr cr hc hw hone =>
    have hw' := map_sum_set wcost s.workers i (.fetching u pr cr) .stopped hw
    have ha' := map_sum_set aliveCost s.workers i (.fetching u pr cr) .stopped hw
    rw [show wcost WStatus.stopped = 0 from rfl,
        show wcost (.fetching u pr cr)
          = 1 + (if pr = none then 1 else 0) + (if cr = none then 1 else 0) from rfl] at hw'
    rw [show aliveCost WStatus.stopped = 0 from rfl,
        show aliveCost (.fetching u pr cr) = 1 from rfl] at ha'
    simp only [pipeMeasure]
    omega
  | finishItem i u p c hw =>
    have hw' := map_sum_set wcost s.workers i (.fetching u (some p) (some c)) .idle hw
    have ha' := map_sum_set aliveCost s.workers i (.fetching u (some p) (some c)) .idle hw
    rw [show wcost .idle = 0 from rfl,
        show wcost (.fetching u (some p) (some c)) = 1 + 0 + 0 from rfl] at hw'
    rw [show aliveCost .idle = 1 from rfl,
        show aliveCost (.fetching u (some p) (some c)) = 1 from rfl] at ha'
    simp only [pipeMeasure]
    omega
  | exitClosed i hjc hj hw =>
    have hw' := map_sum_set wcost s.workers i .idle .stopped hw
    have ha' := map_sum_set aliveCost s.workers i .idle .stopped hw
    rw [show wcost .idle = 0 from rfl, show wcost WStatus.stopped = 0 from rfl] at hw'
    rw [show aliveCost .idle = 1 from rfl, show aliveCost WStatus.stopped = 0 from rfl] at ha'
    simp only [pipeMeasure]
    omega

/-- One printed line of the final report; each constructor is one Printf
format of main (utils.go lines 221-240), carrying exactly the data
interpolated into it. -/
inductive ReportLine where
  | postOk (idx : Nat) (id : Int) (title : String)
  | postErr (url : String)
  | blank
  | commentsHeader (id : Int)
  | commentName (idx : Nat) (name : String)
  | commentsErr (url : String)
  | nilPanic
deriving DecidableEq, Repr

/-- The first-section line for the item at zero-based receive position i
(utils.go lines 221-227); the printed index is i+1.  A successful item
without a post would make Go dereference a nil pointer, marked nilPanic. -/
def reportItemLine (i : Nat) (p : Url) : ReportLine :=
  if p.success then
    match p.post with
    | some post => .postOk (i + 1) post.PostId post.Title
    | none => .nilPanic
  else .postErr p.url

/-- The second-section block for one item (utils.go lines 231-239): header
plus one line per comment when the item succeeded and carries a non-nil
comments pointer, the comments failure line otherwise. -/
def reportCommentsBlock (p : Url) : List ReportLine :=
  match p.success, p.post with
  | true, some post =>
    match post.Comments with
    | some cs =>
        .commentsHeader post.PostId
          :: (cs.enum.map fun ic => .commentName ic.1 ic.2.Name)
    | none => [.commentsErr p.url]
  | true, none => [.nilPanic]
  | false, _ => [.commentsErr p.url]

/-- The whole printed report over the drained result list, in receive
order: first section, blank line, second section. -/
def report (results : List Url) : List ReportLine :=
  (results.enum.map fun ip => reportItemLine ip.1 ip.2) ++ [.blank]
    ++ results.flatMap reportCommentsBlock

/-- Erase the positional receive index from a first-section line. -/
def stripIdx : ReportLine → ReportLine
  | .postOk _ id title => .postOk 0 id title
  | l => l

theorem stripIdx_item (i j : Nat) (p : Url) :
    stripIdx (reportItemLine i p) = stripIdx (reportItemLine j p) := by
  unfold reportItemLine
  by_cases h : p.success <;> simp [h]
  rcases p.post with _ | post <;> simp [stripIdx]

/-- Once the positional index is erased, the report depends on the result
list only up to permutation. -/
theorem report_strip_perm (r1 r2 : List Url) (h : r1.Perm r2) :
    ((report r1).map stripIdx).Perm ((report r2).map stripIdx) := by
  unfold report
  simp only [List.map_append]
  have hsec1 : ∀ r : List Url,
      ((r.enum.map fun ip => reportItemLine ip.1 ip.2).map stripIdx)
        = r.map fun p => stripIdx (reportItemLine 0 p) := by
    intro r
    rw [List.map_map]
    have : ((fun l => stripIdx l) ∘ fun ip : Nat × Url => reportItemLine ip.1 ip.2)
        = fun ip : Nat × Url => stripIdx (reportItemLine ip.1 ip.2) := rfl
    rw [this]
    have h2 : (r.enum.map fun ip : Nat × Url => stripIdx (reportItemLine ip.1 ip.2))
        = r.enum.map fun ip : Nat × Url => stripIdx (reportItemLine 0 ip.2) := by
      apply List.map_congr_left
      intro a _
      exact stripIdx_item a.1 0 a.2
    rw [h2]
    have h3 : (fun ip : Nat × Url => stripIdx (reportItemLine 0 ip.2))
        = (fun p => stripIdx (reportItemLine 0 p)) ∘ Prod.snd := rfl
    rw [h3, ← List.map_map, List.enum_map_snd]
  rw [hsec1 r1, hsec1 r2]
  refine List.Perm.append (List.Perm.append (h.map _) (List.Perm.refl _)) ?_
  rw [List.map_flatMap, List.map_flatMap]
  exact List.Perm.flatMap_right _ h

/-- No execution of the pipeline takes infinitely many steps. -/
theorem no_infinite_run (cfg : Config) (f : Nat → PState)
    (hf : ∀ k, Step cfg (f k) (f (k + 1))) : False := by
  have hlt : ∀ k, pipeMeasure (f (k + 1)) < pipeMeasure (f k) :=
    fun k => step_measure_lt cfg _ _ (hf k)
  have hle : ∀ k, pipeMeasure (f k) + k ≤ pipeMeasure (f 0) := by
    intro k
    induction k with
    | zero => omega
    | succ k ih =>
      have := hlt k
      omega
  have := hle (pipeMeasure (f 0) + 1)
  omega

theorem lt_of_getElem?_some {α : Type _} {l : List α} {i : Nat} {a : α}
    (h : l[i]? = some a) : i < l.length :=
  (List.getElem?_eq_some.mp h).1

/-- C5 (amended): a step takes a worker to the Stopped state only from the
Idle state with the inbound channel closed and drained, or from the middle
of an item with the shared cancellation signal fired; there is no further
stop mechanism.  (The original claim admits only the first alternative; the
cancellation branch of worker ends in return, so the second alternative is
a genuine additional termination path, exhibited by the counterexample.) -/
theorem claim_C5 (cfg : Config) (s s' : PState) (hstep : Step cfg s s') (i : Nat)
    (hw' : s'.workers[i]? = some WStatus.stopped)
    (hw : s.workers[i]? ≠ some WStatus.stopped) :
    (s.workers[i]? = some WStatus.idle ∧ s.jobsClosed = true ∧ s.jobs = [])
    ∨ (∃ u pr cr, s.workers[i]? = some (WStatus.fetching u pr cr) ∧ s.cancelled = true
        ∧ (pr = none ∨ cr = none)) := by
  cases hstep with
  | cancelFire hcfg hc =>
    have h2 : s.workers[i]? = some WStatus.stopped := hw'
    exact absurd h2 hw
  | dequeue j u tl hwj hj =>
    by_cases hij : j = i
    · subst hij
      rw [List.getElem?_set_self (lt_of_getElem?_some hwj)] at hw'
      simp at hw'
    · have h2 : (s.workers.set j (WStatus.fetching u none none))[i]? = some WStatus.stopped := hw'
      rw [List.getElem?_set_ne hij] at h2
      exact absurd h2 hw
  | deliverPost j u cr hwj =>
    by_cases hij : j = i
    · subst hij
      rw [List.getElem?_set_self (lt_of_getElem?_some hwj)] at hw'
      simp at hw'
    · have h2 : (s.workers.set j
          (WStatus.fetching u (some (fetchPost cfg.net u)) cr))[i]? = some WStatus.stopped := hw'
      rw [List.getElem?_set_ne hij] at h2
      exact absurd h2 hw
  | deliverComments j u pr hwj =>
    by_cases hij : j = i
    · subst hij
      rw [List.getElem?_set_self (lt_of_getElem?_some hwj)] at hw'
      simp at hw'
    · have h2 : (s.workers.set j
          (WStatus.fetching u pr (some (fetchComments cfg.net u))))[i]? = some WStatus.stopped := hw'
      rw [List.getElem?_set_ne hij] at h2
      exact absurd h2 hw
  | cancelExit j u pr cr hc hwj hone =>
    by_cases hij : j = i
    · subst hij
      exact Or.inr ⟨u, pr, cr, hwj, hc, hone⟩
    · have h2 : (s.workers.set j WStatus.stopped)[i]? = some WStatus.stopped := hw'
      rw [List.getElem?_set_ne hij] at h2
      exact absurd h2 hw
  | finishItem j u p c hwj =>
    by_cases hij : j = i
    · subst hij
      rw [List.getElem?_set_self (lt_of_getElem?_some hwj)] at hw'
      simp at hw'
    · have h2 : (s.workers.set j WStatus.idle)[i]? = some WStatus.stopped := hw'
      rw [List.getElem?_set_ne hij] at h2
      exact absurd h2 hw
  | exitClosed j hjc hj hwj =>
    by_cases hij : j = i
    · subst hij
      exact Or.inl ⟨hwj, hjc, hj⟩
    · have h2 : (s.workers.set j WStatus.stopped)[i]? = some WStatus.stopped := hw'
      rw [List.getElem?_set_ne hij] at h2
      exact absurd h2 hw

theorem held_of_worker (s : PState) (i : Nat) (u : Url)
    (pr : Option postResult) (cr : Option commentsResult)
    (hw : s.workers[i]? = some (WStatus.fetching u pr cr)) : u ∈ held s :=
  List.mem_filterMap.mpr ⟨WStatus.fetching u pr cr, List.getElem?_mem hw, rfl⟩

theorem mem_inputs_of_held (cfg : Config) (inputs : List Url) (n : Nat) (jc : Bool)
    (s : PState) (u : Url) (hreach : Reach cfg (initState inputs n jc) s)
    (hu : u ∈ held s) : u ∈ inputs := by
  obtain ⟨_, _, done, hacc, _, _⟩ := reach_inv cfg inputs n jc s hreach
  have : u ∈ (↑inputs : Multiset Url) := by
    rw [hacc]
    exact Multiset.mem_add.mpr (Or.inl (Multiset.mem_add.mpr (Or.inr (Multiset.mem_coe.mpr hu))))
  exact Multiset.mem_coe.mp this

/-- C9: on the cancellation path a worker forwards exactly the descriptor
it dequeued, unchanged, even when one or both fetch results had already
been received, so it still carries success false and no post; the merge
happens only on the non-cancelled path, which requires both results to be
present and appends exactly the merged descriptor. -/
theorem claim_C9 (cfg : Config) (lines : List String) (n : Nat) (jc : Bool)
    (s s' : PState) (i : Nat) (u : Url)
    (pr : Option postResult) (cr : Option commentsResult)
    (hreach : Reach cfg (initState (readLines lines) n jc) s)
    (hstep : Step cfg s s')
    (hw : s.workers[i]? = some (WStatus.fetching u pr cr)) :
    (s'.workers[i]? = some WStatus.stopped →
      s'.results = s.results ++ [u] ∧ u.success = false ∧ u.post = none)
    ∧ (s'.workers[i]? = some WStatus.idle →
      ∃ p c, pr = some p ∧ cr = some c
        ∧ s'.results = s.results ++ [applyResults u p c]) := by
  have hu : u.success = false ∧ u.post = none :=
    readLines_fresh lines u
      (mem_inputs_of_held cfg (readLines lines) n jc s u hreach (held_of_worker s i u pr cr hw))
  constructor
  · intro hstop
    cases hstep with
    | cancelFire hcfg hc =>
      have h2 : s.workers[i]? = some WStatus.stopped := hstop
      rw [hw] at h2
      simp at h2
    | dequeue j v tl hwj hj =>
      by_cases hij : j = i
      · subst hij
        have h2 : (s.workers.set j (WStatus.fetching v none none))[j]? = some WStatus.stopped := hstop
        rw [List.getElem?_set_self (lt_of_getElem?_some hwj)] at h2
        simp at h2
      · have h2 : (s.workers.set j (WStatus.fetching v none none))[i]? = some WStatus.stopped := hstop
        rw [List.getElem?_set_ne hij, hw] at h2
        simp at h2
    | deliverPost j v cr2 hwj =>
      by_cases hij : j = i
      · subst hij
        have h2 : (s.workers.set j
            (WStatus.fetching v (some (fetchPost cfg.net v)) cr2))[j]? = some WStatus.stopped := hstop
        rw [List.getElem?_set_self (lt_of_getElem?_some hwj)] at h2
        simp at h2
      · have h2 : (s.workers.set j
            (WStatus.fetching v (some (fetchPost cfg.net v)) cr2))[i]? = some WStatus.stopped := hstop
        rw [List.getElem?_set_ne hij, hw] at h2
        simp at h2
    | deliverComments j v pr2 hwj =>
      by_cases hij : j = i
      · subst hij
        have h2 : (s.workers.set j
            (WStatus.fetching v pr2 (some (fetchComments cfg.net v))))[j]? = some WStatus.stopped := hstop
        rw [List.getElem?_set_self (lt_of_getElem?_some hwj)] at h2
        simp at h2
      · have h2 : (s.workers.set j
            (WStatus.fetching v pr2 (some (fetchComments cfg.net v))))[i]? = some WStatus.stopped := hstop
        rw [List.getElem?_set_ne hij, hw] at h2
        simp at h2
    | cancelExit j v pr2 cr2 hc hwj hone =>
      by_cases hij : j = i
      · subst hij
        rw [hw] at hwj
        have hv : v = u := by
          have := Option.some.inj hwj
          cases this
          rfl
        subst hv
        exact ⟨rfl, hu.1, hu.2⟩
      · have h2 : (s.workers.set j WStatus.stopped)[i]? = some WStatus.stopped := hstop
        rw [List.getElem?_set_ne hij, hw] at h2
        simp at h2
    | finishItem j v p c hwj =>
      by_cases hij : j = i
      · subst hij
        have h2 : (s.workers.set j WStatus.idle)[j]? = some WStatus.stopped := hstop
        rw [List.getElem?_set_self (lt_of_getElem?_some hwj)] at h2
        simp at h2
      · have h2 : (s.workers.set j WStatus.idle)[i]? = some WStatus.stopped := hstop
        rw [List.getElem?_set_ne hij, hw] at h2
        simp at h2
    | exitClosed j hjc hj hwj =>
      by_cases hij : j = i
      · subst hij
        rw [hw] at hwj
        simp at hwj
      · have h2 : (s.workers.set j WStatus.stopped)[i]? = some WStatus.stopped := hstop
        rw [List.getElem?_set_ne hij, hw] at h2
        simp at h2
  · intro hidle
    cases hstep with
    | cancelFire hcfg hc =>
      have h2 : s.workers[i]? = some WStatus.idle := hidle
      rw [hw] at h2
      simp at h2
    | dequeue j v tl hwj hj =>
      by_cases hij : j = i
      · subst hij
        have h2 : (s.workers.set j (WStatus.fetching v none none))[j]? = some WStatus.idle := hidle
        rw [List.getElem?_set_self (lt_of_getElem?_some hwj)] at h2
        simp at h2
      · have h2 : (s.workers.set j (WStatus.fetching v none none))[i]? = some WStatus.idle := hidle
        rw [List.getElem?_set_ne hij, hw] at h2
        simp at h2
    | deliverPost j v cr2 hwj =>
      by_cases hij : j = i
      · subst hij
        have h2 : (s.workers.set j
            (WStatus.fetching v (some (fetchPost cfg.net v)) cr2))[j]? = some WStatus.idle := hidle
        rw [List.getElem?_set_self (lt_of_getElem?_some hwj)] at h2
        simp at h2
      · have h2 : (s.workers.set j
            (WStatus.fetching v (some (fetchPost cfg.net v)) cr2))[i]? = some WStatus.idle := hidle
        rw [List.getElem?_set_ne hij, hw] at h2
        simp at h2
    | deliverComments j v pr2 hwj =>
      by_cases hij : j = i
      · subst hij
        have h2 : (s.workers.set j
            (WStatus.fetching v pr2 (some (fetchComments cfg.net v))))[j]? = some WStatus.idle := hidle
        rw [List.getElem?_set_self (lt_of_getElem?_some hwj)] at h2
        simp at h2
      · have h2 : (s.workers.set j
            (WStatus.fetching v pr2 (some (fetchComments cfg.net v))))[i]? = some WStatus.idle := hidle
        rw [List.getElem?_set_ne hij, hw] at h2
        simp at h2
    | cancelExit j v pr2 cr2 hc hwj hone =>
      by_cases hij : j = i
      · subst hij
        have h2 : (s.workers.set j WStatus.stopped)[j]? = some WStatus.idle := hidle
        rw [List.getElem?_set_self (lt_of_getElem?_some hwj)] at h2
        simp at h2
      · have h2 : (s.workers.set j WStatus.stopped)[i]? = some WStatus.idle := hidle
        rw [List.getElem?_set_ne hij, hw] at h2
        simp at h2
    | finishItem j v p c hwj =>
      by_cases hij : j = i
      · subst hij
        rw [hw] at hwj
        have := Option.some.inj hwj
        cases this
        exact ⟨p, c, rfl, rfl, rfl⟩
      · have h2 : (s.workers.set j WStatus.idle)[i]? = some WStatus.idle := hidle
        rw [List.getElem?_set_ne hij, hw] at h2
        simp at h2
    | exitClosed j hjc hj hwj =>
      by_cases hij : j = i
      · subst hij
        rw [hw] at hwj
        simp at hwj
      · have h2 : (s.workers.set j WStatus.stopped)[i]? = some WStatus.idle := hidle
        rw [List.getElem?_set_ne hij, hw] at h2
        simp at h2

theorem processItem_succ_post (net : Net) (u : Url) (hsu : u.success = false) :
    (processItem net u).success = true → (processItem net u).post ≠ none := by
  unfold processItem applyResults
  by_cases hp : (fetchPost net u).err = none
  · obtain ⟨p, hps⟩ := fetchPost_err_none_post_some net u hp
    rcases hc : (fetchComments net u).err with _ | e <;> simp [hp, hps, hc]
  · simp [hp, hsu]

/-- C7: in any run whose inbound items come from readLines, a descriptor
with succeeded true and no primaryResult never exists: at every reachable
state, every descriptor in the inbound queue, held by a worker, or on the
outbound queue satisfies that success implies a present post. -/
theorem claim_C7 (cfg : Config) (lines : List String) (n : Nat) (jc : Bool) (s : PState)
    (h : Reach cfg (initState (readLines lines) n jc) s) :
    ∀ r : Url, (r ∈ s.jobs ∨ r ∈ held s ∨ r ∈ s.results) →
      r.success = true → r.post ≠ none := by
  obtain ⟨_, _, done, hacc, hres, hout⟩ := reach_inv cfg (readLines lines) n jc s h
  intro r hr hsucc
  rcases hr with hj | hh | hrr
  · have hin : r ∈ readLines lines := by
      have : r ∈ (↑(readLines lines) : Multiset Url) := by
        rw [hacc]
        exact Multiset.mem_add.mpr
          (Or.inl (Multiset.mem_add.mpr (Or.inl (Multiset.mem_coe.mpr hj))))
      exact Multiset.mem_coe.mp this
    rw [(readLines_fresh lines r hin).1] at hsucc
    cases hsucc
  · have hin : r ∈ readLines lines := by
      have : r ∈ (↑(readLines lines) : Multiset Url) := by
        rw [hacc]
        exact Multiset.mem_add.mpr
          (Or.inl (Multiset.mem_add.mpr (Or.inr (Multiset.mem_coe.mpr hh))))
      exact Multiset.mem_coe.mp this
    rw [(readLines_fresh lines r hin).1] at hsucc
    cases hsucc
  · rw [hres] at hrr
    rcases List.mem_map.mp hrr with ⟨q, hq, hq2⟩
    have hq1 : q.1 ∈ readLines lines := by
      have : q.1 ∈ (↑(readLines lines) : Multiset Url) := by
        rw [hacc]
        exact Multiset.mem_add.mpr
          (Or.inr (Multiset.mem_coe.mpr (List.mem_map_of_mem Prod.fst hq)))
      exact Multiset.mem_coe.mp this
    obtain ⟨hfs, hfp⟩ := readLines_fresh lines q.1 hq1
    rcases hout q hq with ho | ho
    · rw [← hq2, ho] at hsucc ⊢
      exact processItem_succ_post cfg.net q.1 hfs hsucc
    · rw [← hq2, ho.2, hfs] at hsucc
      cases hsucc

/-- C10: main hands every worker context.Background(), which can never be
cancelled, so in every state reachable in the program as shipped the
cancellation flag is still unset and no worker has taken the early-exit
cancellation branch (the only transitions into the Stopped state require
the flag or a closed inbound channel, and main closes nothing); the branch
is also unreachable in every next step. -/
theorem claim_C10 (net : Net) (lines : List String) (n : Nat) (s : PState)
    (h : Reach (mainConfig net) (mainInit lines n) s) :
    s.cancelled = false
    ∧ (∀ w ∈ s.workers, w ≠ WStatus.stopped)
    ∧ ∀ s', Step (mainConfig net) s s' → ∀ w ∈ s'.workers, w ≠ WStatus.stopped := by
  have h1 := reach_no_stop (mainConfig net) (readLines lines) n s rfl h
  refine ⟨h1.1, h1.2.2, ?_⟩
  intro s' hs'
  have h2 := reach_no_stop (mainConfig net) (readLines lines) n s' rfl
    (Relation.ReflTransGen.tail h hs')
  exact h2.2.2

/-- Witness for claim C10 at the initial state of a two-worker run. -/
theorem claim_C10_witness :
    (mainInit ["a", "b"] 2).cancelled = false
    ∧ (∀ w ∈ (mainInit ["a", "b"] 2).workers, w ≠ WStatus.stopped)
    ∧ ∀ s', Step (mainConfig netW1) (mainInit ["a", "b"] 2) s' →
        ∀ w ∈ s'.workers, w ≠ WStatus.stopped :=
  claim_C10 netW1 ["a", "b"] 2 (mainInit ["a", "b"] 2) Relation.ReflTransGen.refl

/-- C2 (amended): cancellation never duplicates or fabricates outcomes and
never retracts an already-delivered outcome: at every reachable state the
delivered outcomes account for pairwise-distinct submitted items (their
addresses extend to a permutation of the submitted addresses), every
further step only appends to the outbound queue, and every delivered
outcome is either the full merged outcome of its item or, on the
cancellation path, the item forwarded unchanged (hence still unsuccessful
if submitted so).  The original claim additionally promises one outcome for
every submitted item after cancellation; the counterexample shows a
cancelled run that terminates with a submitted item never answered,
because the cancellation branch also terminates the worker. -/
theorem claim_C2 (cfg : Config) (inputs : List Url) (n : Nat) (jc : Bool) (s : PState)
    (hreach : Reach cfg (initState inputs n jc) s) :
    (∃ rest : List String, ((s.results.map Url.url) ++ rest).Perm (inputs.map Url.url))
    ∧ (∀ s', Step cfg s s' → ∃ t, s'.results = s.results ++ t)
    ∧ (∀ r ∈ s.results, ∃ u, u ∈ inputs ∧ (r = processItem cfg.net u ∨ r = u)) := by
  obtain ⟨_, _, done, hacc, hres, hout⟩ := reach_inv cfg inputs n jc s hreach
  refine ⟨⟨(s.jobs ++ held s).map Url.url, ?_⟩,
    fun s' h => step_results_append cfg s s' h, ?_⟩
  · have hurl : done.map (fun q => q.2.url) = done.map (fun q => q.1.url) := by
      apply List.map_congr_left
      intro q hq
      rcases hout q hq with h | h
      · rw [h, processItem_url]
      · rw [h.2]
    apply Multiset.coe_eq_coe.mp
    have hm := congrArg (Multiset.map Url.url) hacc
    rw [Multiset.map_coe, Multiset.map_add, Multiset.map_add, Multiset.map_coe,
      Multiset.map_coe, Multiset.map_coe] at hm
    have hr2 : s.results.map Url.url = (done.map Prod.fst).map Url.url := by
      rw [hres, List.map_map, List.map_map]
      exact hurl
    rw [show (↑((s.results.map Url.url) ++ ((s.jobs ++ held s).map Url.url)) : Multiset String)
      = ↑(s.results.map Url.url) + ↑((s.jobs ++ held s).map Url.url) from rfl]
    rw [List.map_append]
    rw [show (↑((s.jobs.map Url.url) ++ ((held s).map Url.url)) : Multiset String)
      = ↑(s.jobs.map Url.url) + ↑((held s).map Url.url) from rfl]
    rw [hr2, hm]
    abel
  · intro r hr
    rw [hres] at hr
    rcases List.mem_map.mp hr with ⟨q, hq, hq2⟩
    refine ⟨q.1, ?_, ?_⟩
    · have : q.1 ∈ (↑inputs : Multiset Url) := by
        rw [hacc]
        exact Multiset.mem_add.mpr
          (Or.inr (Multiset.mem_coe.mpr (List.mem_map_of_mem Prod.fst hq)))
      exact Multiset.mem_coe.mp this
    · rcases hout q hq with h | h
      · exact Or.inl (hq2 ▸ h)
      · exact Or.inr (hq2 ▸ h.2)

/-- C1 (amended): with a positive worker count at most the item count, an
uncancellable context and an unclosed inbound channel, no run goes on for
ever, and every completed (quiescent) run delivers to the dispatcher
exactly one outcome per submitted item — the outbound contents are a
permutation of the pointwise-processed inputs, so no item is lost and none
is duplicated, whether its fetches succeeded or failed.  The original
claim also admits zero workers, refuted by the counterexample: with zero
workers and a nonempty batch nothing is ever delivered. -/
theorem claim_C1 (cfg : Config) (inputs : List Url) (n : Nat)
    (hcanc : cfg.cancellable = false) (h1 : 1 ≤ n) (h2 : n ≤ inputs.length) :
    (∀ f : Nat → PState, (∀ k, Step cfg (f k) (f (k + 1))) → False)
    ∧ ∀ s, Reach cfg (initState inputs n false) s → Terminal cfg s →
        s.results.Perm (inputs.map (processItem cfg.net)) := by
  refine ⟨fun f hf => no_infinite_run cfg f hf, fun s hr ht => ?_⟩
  have := h2
  exact terminal_complete cfg inputs n s hcanc h1 hr ht

/-- Witness for claim C1 at one worker and one item. -/
theorem claim_C1_witness :
    (∀ f : Nat → PState,
      (∀ k, Step (Config.mk netW1 false) (f k) (f (k + 1))) → False)
    ∧ ∀ s, Reach (Config.mk netW1 false) (initState (readLines ["a"]) 1 false) s →
        Terminal (Config.mk netW1 false) s →
        s.results.Perm ((readLines ["a"]).map (processItem netW1)) :=
  claim_C1 (Config.mk netW1 false) (readLines ["a"]) 1 rfl (by decide) (by decide)

def cfgZ : Config := { net := netW1, cancellable := false }

def initZ : PState := initState (readLines ["a"]) 0 false

theorem initZ_stuck : ∀ t, ¬ Step cfgZ initZ t := by
  intro t h
  cases h with
  | cancelFire hcfg hc => exact absurd hcfg (by decide)
  | dequeue i u tl hw hj =>
    have := List.getElem?_mem hw
    simp [initZ, initState] at this
  | deliverPost i u cr hw =>
    have := List.getElem?_mem hw
    simp [initZ, initState] at this
  | deliverComments i u pr hw =>
    have := List.getElem?_mem hw
    simp [initZ, initState] at this
  | cancelExit i u pr cr hc hw hone =>
    have := List.getElem?_mem hw
    simp [initZ, initState] at this
  | finishItem i u p c hw =>
    have := List.getElem?_mem hw
    simp [initZ, initState] at this
  | exitClosed i hjc hj hw =>
    have := List.getElem?_mem hw
    simp [initZ, initState] at this

theorem reachZ_eq (s : PState) (h : Reach cfgZ initZ s) : s = initZ := by
  induction h with
  | refl => rfl
  | tail hr hstep ih =>
    rw [ih] at hstep
    exact absurd hstep (initZ_stuck _)

/-- Counterexample to claim C1 as stated: with zero workers (a non-negative
count at most the item count one) and one submitted item, every reachable
state of the run still has an empty outbound queue, so the submitted item
never appears among the received outcomes. -/
theorem claim_C1_counterexample :
    (initState (readLines ["a"]) 0 false).jobs.length = 1
    ∧ (∀ s, Reach cfgZ (initState (readLines ["a"]) 0 false) s → s.results = []) := by
  refine ⟨by decide, ?_⟩
  intro s h
  rw [reachZ_eq s h]
  rfl

def uA : Url := { url := "a", success := false, post := none }

def uB : Url := { url := "b", success := false, post := none }

def cfgT : Config := { net := netW1, cancellable := true }

def sT0 : PState := initState (readLines ["a", "b"]) 1 false

def sT1 : PState :=
  { jobs := [uB], jobsClosed := false, cancelled := false,
    workers := [.fetching uA none none], results := [] }

def sT2 : PState :=
  { jobs := [uB], jobsClosed := false, cancelled := true,
    workers := [.fetching uA none none], results := [] }

def sT3 : PState :=
  { jobs := [uB], jobsClosed := false, cancelled := true,
    workers := [.stopped], results := [uA] }

theorem stepT1 : Step cfgT sT0 sT1 := Step.dequeue sT0 0 uA [uB] rfl (by decide)

theorem stepT2 : Step cfgT sT1 sT2 := Step.cancelFire sT1 rfl rfl

theorem stepT3 : Step cfgT sT2 sT3 :=
  Step.cancelExit sT2 0 uA none none rfl rfl (Or.inl rfl)

theorem reachT2 : Reach cfgT sT0 sT2 :=
  Relation.ReflTransGen.head stepT1
    (Relation.ReflTransGen.head stepT2 Relation.ReflTransGen.refl)

theorem reachT : Reach cfgT sT0 sT3 :=
  Relation.ReflTransGen.head stepT1
    (Relation.ReflTransGen.head stepT2
      (Relation.ReflTransGen.head stepT3 Relation.ReflTransGen.refl))

theorem termT : Terminal cfgT sT3 := by
  intro t h
  cases h with
  | cancelFire hcfg hc => simp [sT3] at hc
  | dequeue i u tl hw hj =>
    have := List.getElem?_mem hw
    simp [sT3] at this
  | deliverPost i u cr hw =>
    have := List.getElem?_mem hw
    simp [sT3] at this
  | deliverComments i u pr hw =>
    have := List.getElem?_mem hw
    simp [sT3] at this
  | cancelExit i u pr cr hc hw hone =>
    have := List.getElem?_mem hw
    simp [sT3] at this
  | finishItem i u p c hw =>
    have := List.getElem?_mem hw
    simp [sT3] at this
  | exitClosed i hjc hj hw => simp [sT3] at hjc

/-- Counterexample to claim C2 as stated: a one-worker run over two
submitted items in which the cancellation signal fires while the first item
is in flight; the worker forwards that item and returns, the run reaches
quiescence, and the second submitted item never receives an outcome. -/
theorem claim_C2_counterexample :
    Reach cfgT (initState (readLines ["a", "b"]) 1 false) sT3
    ∧ Terminal cfgT sT3
    ∧ (initState (readLines ["a", "b"]) 1 false).jobs.map Url.url = ["a", "b"]
    ∧ sT3.results.map Url.url = ["a"]
    ∧ "b" ∉ sT3.results.map Url.url :=
  ⟨reachT, termT, by decide, by decide, by decide⟩

/-- Witness for claim C2, instantiated at the cancelled quiescent state of
the counterexample run. -/
theorem claim_C2_witness :
    (∃ rest : List String,
      ((sT3.results.map Url.url) ++ rest).Perm ((readLines ["a", "b"]).map Url.url))
    ∧ (∀ s', Step cfgT sT3 s' → ∃ t, s'.results = sT3.results ++ t)
    ∧ (∀ r ∈ sT3.results, ∃ u, u ∈ readLines ["a", "b"]
        ∧ (r = processItem cfgT.net u ∨ r = u)) :=
  claim_C2 cfgT (readLines ["a", "b"]) 1 false sT3 reachT

/-- Counterexample to claim C5 as stated: in the same cancelled run the
worker has terminated although the inbound queue was never closed and still
holds an item. -/
theorem claim_C5_counterexample :
    Reach cfgT (initState (readLines ["a", "b"]) 1 false) sT3
    ∧ sT3.workers = [WStatus.stopped]
    ∧ sT3.jobsClosed = false
    ∧ sT3.jobs ≠ [] :=
  ⟨reachT, rfl, rfl, by decide⟩

/-- Witness for claim C5 at the cancellation step of the counterexample
run. -/
theorem claim_C5_witness :
    (sT2.workers[0]? = some WStatus.idle ∧ sT2.jobsClosed = true ∧ sT2.jobs = [])
    ∨ (∃ u pr cr, sT2.workers[0]? = some (WStatus.fetching u pr cr)
        ∧ sT2.cancelled = true ∧ (pr = none ∨ cr = none)) :=
  claim_C5 cfgT sT2 sT3 stepT3 0 (by decide) (by decide)

/-- Witness for claim C9 at the cancellation step of the trace run. -/
theorem claim_C9_witness :
    (sT3.workers[0]? = some WStatus.stopped →
      sT3.results = sT2.results ++ [uA] ∧ uA.success = false ∧ uA.post = none)
    ∧ (sT3.workers[0]? = some WStatus.idle →
      ∃ p c, (none : Option postResult) = some p
        ∧ (none : Option commentsResult) = some c
        ∧ sT3.results = sT2.results ++ [applyResults uA p c]) :=
  claim_C9 cfgT ["a", "b"] 1 false sT2 sT3 0 uA none none reachT2 stepT3 (by decide)

/-- C8 (amended): two complete runs of the pipeline against the same
deterministic environment and input list deliver outcome lists that are
permutations of each other, and once the positional receive index embedded
in each first-section line is disregarded, the two printed reports are
identical up to reordering of lines.  The original claim promises identity
up to reordering of the literal lines; the counterexample shows two runs
whose completion orders differ and whose literal line multisets therefore
differ, because each first-section line interpolates its 1-based position
in the receive order. -/
theorem claim_C8 (cfg : Config) (inputs : List Url) (n : Nat)
    (hcanc : cfg.cancellable = false) (hn : 1 ≤ n) (s1 s2 : PState)
    (h1 : Reach cfg (initState inputs n false) s1) (t1 : Terminal cfg s1)
    (h2 : Reach cfg (initState inputs n false) s2) (t2 : Terminal cfg s2) :
    s1.results.Perm s2.results
    ∧ ((report s1.results).map stripIdx).Perm ((report s2.results).map stripIdx) := by
  have p1 := terminal_complete cfg inputs n s1 hcanc hn h1 t1
  have p2 := terminal_complete cfg inputs n s2 hcanc hn h2 t2
  have hp : s1.results.Perm s2.results := p1.trans p2.symm
  exact ⟨hp, report_strip_perm _ _ hp⟩

def pA8 : UserPost := { PostId := 1, Title := "ta", Body := "", Comments := none }

def pB8 : UserPost := { PostId := 2, Title := "tb", Body := "", Comments := none }

def net8 : Net where
  http a :=
    if a = "a" then .response 200 "A"
    else if a = "b" then .response 200 "B"
    else .response 500 ""
  decodePost b :=
    if b = "A" then some pA8 else if b = "B" then some pB8 else none
  decodeComments _ := some []

def cfg8 : Config := { net := net8, cancellable := false }

def init8 : PState := initState (readLines ["a", "b"]) 2 false

def rA8 : Url := processItem net8 uA

def rB8 : Url := processItem net8 uB

def s8a1 : PState :=
  { jobs := [uB], jobsClosed := false, cancelled := false,
    workers := [.fetching uA none none, .idle], results := [] }

def s8a2 : PState :=
  { jobs := [], jobsClosed := false, cancelled := false,
    workers := [.fetching uA none none, .fetching uB none none], results := [] }

def s8a3 : PState :=
  { jobs := [], jobsClosed := false, cancelled := false,
    workers := [.fetching uA (some (fetchPost net8 uA)) none, .fetching uB none none],
    results := [] }

def s8a4 : PState :=
  { jobs := [], jobsClosed := false, cancelled := false,
    workers := [.fetching uA (some (fetchPost net8 uA)) (some (fetchComments net8 uA)),
      .fetching uB none none],
    results := [] }

def s8a5 : PState :=
  { jobs := [], jobsClosed := false, cancelled := false,
    workers := [.idle, .fetching uB none none], results := [rA8] }

def s8a6 : PState :=
  { jobs := [], jobsClosed := false, cancelled := false,
    workers := [.idle, .fetching uB (some (fetchPost net8 uB)) none], results := [rA8] }

def s8a7 : PState :=
  { jobs := [], jobsClosed := false, cancelled := false,
    workers := [.idle, .fetching uB (some (fetchPost net8 uB)) (some (fetchComments net8 uB))],
    results := [rA8] }

def s8aF : PState :=
  { jobs := [], jobsClosed := false, cancelled := false,
    workers := [.idle, .idle], results := [rA8, rB8] }

theorem reach8a : Reach cfg8 init8 s8aF :=
  Relation.ReflTransGen.head (Step.dequeue init8 0 uA [uB] rfl (by decide))
    (Relation.ReflTransGen.head (Step.dequeue s8a1 1 uB [] rfl rfl)
      (Relation.ReflTransGen.head (Step.deliverPost s8a2 0 uA none rfl)
        (Relation.ReflTransGen.head
          (Step.deliverComments s8a3 0 uA (some (fetchPost net8 uA)) rfl)
          (Relation.ReflTransGen.head
            (Step.finishItem s8a4 0 uA (fetchPost net8 uA) (fetchComments net8 uA) rfl)
            (Relation.ReflTransGen.head (Step.deliverPost s8a5 1 uB none rfl)
              (Relation.ReflTransGen.head
                (Step.deliverComments s8a6 1 uB (some (fetchPost net8 uB)) rfl)
                (Relation.ReflTransGen.head
                  (Step.finishItem s8a7 1 uB (fetchPost net8 uB) (fetchComments net8 uB) rfl)
                  Relation.ReflTransGen.refl)))))))

/-- Witness for claim C7 at a concrete successful outcome delivered by a
complete two-worker run (the state s8aF reached via reach8a). -/
theorem claim_C7_witness :
    (processItem net8 uA).post ≠ none :=
  claim_C7 cfg8 ["a", "b"] 2 false s8aF reach8a (processItem net8 uA)
    (Or.inr (Or.inr (by decide))) (by decide)

def s8b3 : PState :=
  { jobs := [], jobsClosed := false, cancelled := false,
    workers := [.fetching uA none none, .fetching uB (some (fetchPost net8 uB)) none],
    results := [] }

def s8b4 : PState :=
  { jobs := [], jobsClosed := false, cancelled := false,
    workers := [.fetching uA none none,
      .fetching uB (some (fetchPost net8 uB)) (some (fetchComments net8 uB))],
    results := [] }

def s8b5 : PState :=
  { jobs := [], jobsClosed := false, cancelled := false,
    workers := [.fetching uA none none, .idle], results := [rB8] }

def s8b6 : PState :=
  { jobs := [], jobsClosed := false, cancelled := false,
    workers := [.fetching uA (some (fetchPost net8 uA)) none, .idle], results := [rB8] }

def s8b7 : PState :=
  { jobs := [], jobsClosed := false, cancelled := false,
    workers := [.fetching uA (some (fetchPost net8 uA)) (some (fetchComments net8 uA)), .idle],
    results := [rB8] }

def s8bF : PState :=
  { jobs := [], jobsClosed := false, cancelled := false,
    workers := [.idle, .idle], results := [rB8, rA8] }

theorem reach8b : Reach cfg8 init8 s8bF :=
  Relation.ReflTransGen.head (Step.dequeue init8 0 uA [uB] rfl (by decide))
    (Relation.ReflTransGen.head (Step.dequeue s8a1 1 uB [] rfl rfl)
      (Relation.ReflTransGen.head (Step.deliverPost s8a2 1 uB none rfl)
        (Relation.ReflTransGen.head
          (Step.deliverComments s8b3 1 uB (some (fetchPost net8 uB)) rfl)
          (Relation.ReflTransGen.head
            (Step.finishItem s8b4 1 uB (fetchPost net8 uB) (fetchComments net8 uB) rfl)
            (Relation.ReflTransGen.head (Step.deliverPost s8b5 0 uA none rfl)
              (Relation.ReflTransGen.head
                (Step.deliverComments s8b6 0 uA (some (fetchPost net8 uA)) rfl)
                (Relation.ReflTransGen.head
                  (Step.finishItem s8b7 0 uA (fetchPost net8 uA) (fetchComments net8 uA) rfl)
                  Relation.ReflTransGen.refl)))))))

theorem term8a : Terminal cfg8 s8aF := by
  intro t h
  cases h with
  | cancelFire hcfg hc => exact absurd hcfg (by decide)
  | dequeue i u tl hw hj => simp [s8aF] at hj
  | deliverPost i u cr hw =>
    have := List.getElem?_mem hw
    simp [s8aF] at this
  | deliverComments i u pr hw =>
    have := List.getElem?_mem hw
    simp [s8aF] at this
  | cancelExit i u pr cr hc hw hone => simp [s8aF] at hc
  | finishItem i u p c hw =>
    have := List.getElem?_mem hw
    simp [s8aF] at this
  | exitClosed i hjc hj hw => simp [s8aF] at hjc

theorem term8b : Terminal cfg8 s8bF := by
  intro t h
  cases h with
  | cancelFire hcfg hc => exact absurd hcfg (by decide)
  | dequeue i u tl hw hj => simp [s8bF] at hj
  | deliverPost i u cr hw =>
    have := List.getElem?_mem hw
    simp [s8bF] at this
  | deliverComments i u pr hw =>
    have := List.getElem?_mem hw
    simp [s8bF] at this
  | cancelExit i u pr cr hc hw hone => simp [s8bF] at hc
  | finishItem i u p c hw =>
    have := List.getElem?_mem hw
    simp [s8bF] at this
  | exitClosed i hjc hj hw => simp [s8bF] at hjc

/-- Counterexample to claim C8 as stated: two complete runs of the same
pipeline over the same environment and inputs, differing only in which item
completes first; their printed reports are not permutations of each other,
because the first-section lines interpolate the positional receive index. -/
theorem claim_C8_counterexample :
    Reach cfg8 init8 s8aF ∧ Terminal cfg8 s8aF
    ∧ Reach cfg8 init8 s8bF ∧ Terminal cfg8 s8bF
    ∧ ¬ (report s8aF.results).Perm (report s8bF.results) :=
  ⟨reach8a, term8a, reach8b, term8b, by decide⟩

/-- Witness for claim C8 at the two concrete complete runs of the
counterexample environment. -/
theorem claim_C8_witness :
    s8aF.results.Perm s8bF.results
    ∧ ((report s8aF.results).map stripIdx).Perm ((report s8bF.results).map stripIdx) :=
  claim_C8 cfg8 (readLines ["a", "b"]) 2 rfl (by decide) s8aF s8bF
    reach8a term8a reach8b term8b

end GoReq
